import Mathlib

/-!
Verification of the pyedgeon rendering pipeline (src/pyedgeon/pyedgeon.py).

Shallow embedding conventions:
* A pixel is a 4-channel RGBA value with natural-number channels; the code
  works on 8-bit channels but never overflows them (it only copies values or
  writes constants in 0..255), so `Nat` channels are faithful.
* An image is a total function `Nat → Nat → Pix`; the Python code indexes
  `pixdata[x, y]`, and every write in the embedded stages is modelled by a
  pointwise functional update.  Out-of-range coordinates are simply never
  read by the embedded loops, which all iterate over `List.range`.
* Floating-point square roots in `draw_frame` are embedded by exact integer
  arithmetic: `int(c * sqrt(q))`-style truncations are rewritten with the
  identities `⌊√m · k / n⌋ = ⌊⌊√(m·k²)⌋ / n⌋` and
  `⌊(n − √m) / 2⌋ = (n − ⌈√m⌉) / 2`, valid for the non-negative reals that
  occur there, and the comparison `sqrt a ≥ r − 2` (with `r = N/2 ≥ 32` for
  every validated `img_side`) is embedded as the squared comparison
  `4·a ≥ (N − 4)²` over `Int`.
* Python `int()` on the non-negative quantities involved is floor; on the
  possibly-negative argument in `estimate_font_size` it truncates toward
  zero, embedded by `ratTrunc`.
-/

namespace Pyedgeon

/-- RGBA pixel with natural-number channels (`a = 0` transparent, `255` opaque). -/
structure Pix where
  r : ℕ
  g : ℕ
  b : ℕ
  a : ℕ
deriving DecidableEq, Repr

/-- RGB colour triple, as carried by `text_color` / `background_color`. -/
structure RGB where
  r : ℕ
  g : ℕ
  b : ℕ
deriving DecidableEq, Repr

/-- Square pixel buffer, addressed `img x y` like PIL's `pixdata[x, y]`. -/
def Img : Type := ℕ → ℕ → Pix

/-- Functional update of one pixel, modelling `pixdata[x, y] = p`. -/
def setPix (img : Img) (x y : ℕ) (p : Pix) : Img :=
  fun u v => if u = x ∧ v = y then p else img u v

/-- Background colour with alpha 0, i.e. `self.background_color + (0,)`. -/
def bgClear (bg : RGB) : Pix := ⟨bg.r, bg.g, bg.b, 0⟩

/-- Background colour at full opacity, i.e. `self.background_color + (255,)`. -/
def bgSolid (bg : RGB) : Pix := ⟨bg.r, bg.g, bg.b, 255⟩

/-- Text colour at full opacity, i.e. `self.text_color + (255,)`. -/
def textSolid (tc : RGB) : Pix := ⟨tc.r, tc.g, tc.b, 255⟩

/-! ### MaskRenderer thresholding (`draw_frame`, the vectorised block)

The code builds `output = np.zeros(...)`, reads the green channel as
brightness, then assigns `output[is_light] = background_color + (0,)` and
`output[is_dark] = text_color + (255,)`.  The two masked assignments are
embedded in that order, starting from the all-zero pixel. -/

/-- One pixel of the threshold conversion: start from `np.zeros`, apply the
`is_light` masked assignment, then the `is_dark` one. -/
def thresholdPix (thr : ℕ) (bg tc : RGB) (p : Pix) : Pix :=
  let o0 : Pix := ⟨0, 0, 0, 0⟩
  let o1 := if thr ≤ p.g then bgClear bg else o0
  if p.g < thr then textSolid tc else o1

/-- Whole-buffer threshold conversion of `draw_frame`'s vectorised block. -/
def thresholdImg (thr : ℕ) (bg tc : RGB) (img : Img) : Img :=
  fun x y => thresholdPix thr bg tc (img x y)

/-! ### Compositor (`alpha_to_white`) -/

/-- Per-pixel flatten of `alpha_to_white`: pixels with `alpha == 0` become
the opaque background colour, all other pixels are untouched. -/
def alphaToWhite (bg : RGB) (img : Img) : Img :=
  fun x y =>
    let p := img x y
    if p.a = 0 then bgSolid bg else p

/-! ### FontSizeEstimator (`estimate_font_size`) -/

/-- Digit characters, the `string.digits` constant appended in the source. -/
def digitChars : List Char := ['0', '1', '2', '3', '4', '5', '6', '7', '8', '9']

/-- Per-character width weight in milli-inches: the `if`/`elif` bucket chain
of `estimate_font_size`, with the source's membership strings spelled as
character lists (apostrophe, backquote, double quote and braces are written
via `Char.ofNat` 39, 96, 34, 123, 125). -/
def charWeight (c : Char) : ℕ :=
  if c ∈ ['l', 'i', 'j', '|', Char.ofNat 39, ' '] then 37
  else if c ∈ ['!', '[', ']', 'f', 'I', '.', ',', ':', ';', '/', '\\', 't'] then 50
  else if c ∈ [Char.ofNat 96, '-', '(', ')', Char.ofNat 123, Char.ofNat 125, 'r', Char.ofNat 34] then 60
  else if c ∈ ['*', '^', 'z', 'c', 's', 'J', 'k', 'v', 'x', 'y'] then 85
  else if c ∈ (['a', 'e', 'b', 'd', 'h', 'n', 'o', 'p', 'q', 'u', 'g', '#', '$', 'L', '+', '<', '>', '=', '?', '_', '~', 'F', 'Z', 'T'] ++ digitChars) then 95
  else if c ∈ ['B', 'S', 'P', 'E', 'A', 'K', 'V', 'X', 'Y', '&', 'U', 'w', 'N', 'R', 'C', 'H', 'D'] then 112
  else if c ∈ ['Q', 'G', 'O', 'M', 'm', '%', 'W', '@'] then 135
  else 50

/-- Python `int()`: truncation toward zero on rationals. -/
def ratTrunc (q : ℚ) : ℤ := if 0 ≤ q then ⌊q⌋ else ⌈q⌉

/-- Source-shaped `estimate_font_size`: accumulate the weights over the text
with a fold (the `for s in self.illusion_text` loop), scale by `6/1000`, and
clamp `int(280 - 18.7*milinches)` to `[60, 220]`. -/
def estimateFontSize (t : List Char) : ℤ :=
  let size : ℕ := t.foldl (fun acc c => acc + charWeight c) 0
  let milinches : ℚ := (size : ℚ) * 6 / 1000
  min (max (ratTrunc (280 - (18.7 : ℚ) * milinches)) 60) 220

/-- Spec-shaped guess formula: `int(280 − 18.7 × (Σ weights × 6/1000))`
clamped to `[60, 220]`, written with a literal sum as the spec words it. -/
def guessFormula (t : List Char) : ℤ :=
  min (max (ratTrunc (280 - (187 / 10 : ℚ) * (((t.map charWeight).sum : ℚ) * 6 / 1000))) 60) 220

/-! ### Stamper (`stamp`)

`stamp` iterates `i` over `range(num_rotations)`, rotates the circular mask
by `i*180/num_rotations` degrees (rotation is the external capability of
spec §6, taken here as an arbitrary function on buffers) and pastes the
rotated copy onto the accumulator with the copy itself as mask.  PIL's
`paste` with an RGBA mask keeps the destination where the mask alpha is 0,
replaces it where the alpha is 255, and blends proportionally in between;
the masks produced by this pipeline are two-valued, so only the first two
cases are ever exercised. -/

/-- One `full_image.paste(this_circle, (0, 0), this_circle)` step. -/
def pasteMask (acc src : Img) : Img :=
  fun x y =>
    let s := src x y
    let d := acc x y
    if s.a = 0 then d
    else if s.a = 255 then s
    else ⟨(s.r * s.a + d.r * (255 - s.a)) / 255, (s.g * s.a + d.g * (255 - s.a)) / 255,
          (s.b * s.a + d.b * (255 - s.a)) / 255, (s.a * s.a + d.a * (255 - s.a)) / 255⟩

/-- Rotation angle of stamp iteration `i`, i.e. `i*180/num_rotations` degrees. -/
def stampAngle (num i : ℕ) : ℚ := (i : ℚ) * 180 / (num : ℚ)

/-- The `stamp` loop: ascending `i`, each rotated copy pasted over the
accumulator. -/
def stamp (rot : ℚ → Img → Img) (num : ℕ) (mask acc0 : Img) : Img :=
  (List.range num).foldl (fun acc i => pasteMask acc (rot (stampAngle num i) mask)) acc0

/-! ### FontFitter search (`get_fontsize`)

The probe `test_font_size` renders the text through the external
rasterization capability; it is embedded as an oracle
`probe : ℕ → Option Bool` returning `none` when the font fails to load or
the rendering is blank (the code's `return None, None, False` paths) and
`some fits` otherwise.  The binary-search loop state is `(min_size,
max_size, best)` where `best = some s` stands for `best_font is not None`
with `best_size = s`; the loop runs `while min_size <= max_size and
iterations < 15`, embedded as fuel-limited recursion with fuel 15. -/

/-- Binary search loop state: `min_size`, `max_size`, and the best fitting
size found so far (`none` models `best_font is None`). -/
structure SearchState where
  lo : ℕ
  hi : ℕ
  best : Option ℕ
deriving DecidableEq, Repr

/-- One iteration body of the `while` loop in `get_fontsize`. -/
def searchBody (probe : ℕ → Option Bool) (s : SearchState) : SearchState :=
  let mid := (s.lo + s.hi) / 2
  match probe mid with
  | none => ⟨s.lo, mid - 1, s.best⟩
  | some true => ⟨mid + 1, s.hi, some mid⟩
  | some false => ⟨s.lo, mid - 1, s.best⟩

/-- One guarded step of the loop: run the body only while `min_size ≤ max_size`. -/
def searchStep (probe : ℕ → Option Bool) (s : SearchState) : SearchState :=
  if s.lo ≤ s.hi then searchBody probe s else s

/-- The fuel-limited `while min_size <= max_size and iterations < fuel` loop,
returning the best size found (`none` models `best_font is None`). -/
def searchRun (probe : ℕ → Option Bool) : ℕ → SearchState → Option ℕ
  | 0, s => s.best
  | fuel + 1, s => if s.lo ≤ s.hi then searchRun probe fuel (searchBody probe s) else s.best

/-- Lower end of the search window, `max(guess - 30, 10)`. -/
def loBound (guess : ℕ) : ℕ := max (guess - 30) 10

/-- Upper end of the search window, `min(guess + 30, 350)`. -/
def hiBound (guess : ℕ) : ℕ := min (guess + 30) 350

/-- Start of the fallback scan, `max(guess - 20, 20)` (the adjusted guess). -/
def fallbackStart (guess : ℕ) : ℕ := max (guess - 20) 20

/-- The sizes probed by the fallback loop `for size in range(start, 10, -5)`. -/
def fallbackSizes (start : ℕ) : List ℕ :=
  (List.range ((start - 10 + 4) / 5)).map (fun k => start - 5 * k)

/-- Whole `get_fontsize` search: binary search with fuel 15 over the window
`[loBound, hiBound]`, then on failure the linear fallback scan; `none`
models the final `RuntimeError` ("Could not find suitable font size"). -/
def getFontsize (probe : ℕ → Option Bool) (guess : ℕ) : Option ℕ :=
  match searchRun probe 15 ⟨loBound guess, hiBound guess, none⟩ with
  | some s => some s
  | none => (fallbackSizes (fallbackStart guess)).find? (fun s => probe s == some true)

/-- Probe built from an abstract bounding-box width function: every probe
succeeds and reports whether the padded width is strictly below the limit
`img_side - 2*crop_width_x` (the claim's fits-predicate, with the width
measurement abstracted into `width`). -/
def fitsProbe (width : ℕ → ℤ) (limit : ℤ) : ℕ → Option Bool :=
  fun s => some (decide (width s < limit))

/-- The fits-predicate on sizes: padded bounding-box width strictly below
the limit `img_side - 2*crop_width_x`. -/
def fitsPred (width : ℕ → ℤ) (limit : ℤ) : ℕ → Prop :=
  fun s => width s < limit

instance (width : ℕ → ℤ) (limit : ℤ) : DecidablePred (fitsPred width limit) := by
  unfold fitsPred
  infer_instance

/-- Bounding box `(x0, y0, x1, y1)` as returned by `inverted.getbbox()`. -/
structure BBox where
  x0 : ℤ
  y0 : ℤ
  x1 : ℤ
  y1 : ℤ
deriving DecidableEq, Repr

/-- The probe `test_font_size`, parametric over the external rasterization
capability `rb` that returns the raw bounding box of the inverted render
(`none` models both a font-loading failure and a blank render, the code's
`return None, None, False` paths).  The box is padded by `crop_width_x` on
both sides and its width compared with `img_side - 2*crop_width_x`. -/
def testFontSize (rb : ℕ → Option BBox) (cwx side : ℤ) (s : ℕ) : Option Bool :=
  match rb s with
  | none => none
  | some bb => some (decide ((bb.x1 + cwx) - (bb.x0 - cwx) < side - 2 * cwx))

/-! ### RenderConfig and `check_length` / `_validate_inputs`

`Config` carries exactly the RenderConfig fields of spec §3 (text string,
colours, canvas side, crop padding, darkness threshold, rotation count)
plus `charmax`, which `check_length` reads.  Of the steps run by
`create()` — `check_length`, `estimate_font_size`, `draw_clear`,
`get_fontsize`, `draw_frame`, `stamp`, `alpha_to_white`, `save_img` — only
`check_length` assigns to any of these fields (the others assign only the
working attributes `raw_img`, `img`, `circle_img`, `full_image`, `draw`,
`scaled_img`, `font_size_guess`, `font_size`, `font`, `boundingbox`), so
the configuration visible after `create()` is `check_length`'s result. -/

/-- RenderConfig fields read by the core pipeline. -/
structure Config where
  text : List Char
  text_color : RGB
  background_color : RGB
  img_side : ℕ
  crop_width_x : ℕ
  crop_width_y : ℕ
  darkness_threshold : ℕ
  num_rotations : ℕ
  charmax : ℕ
deriving DecidableEq, Repr

/-- The `check_length` step of `create()`: truncate the text to `charmax`
characters when it is longer, then fail if the text is empty. -/
def check_length (c : Config) : Except String Config :=
  let c1 := if c.charmax < c.text.length then { c with text := c.text.take c.charmax } else c
  if c1.text.length = 0 then Except.error "Text cannot be empty after truncation"
  else Except.ok c1

/-- Colour components are within `0..255` (`_validate_color`). -/
def colorOK (col : RGB) : Prop := col.r ≤ 255 ∧ col.g ≤ 255 ∧ col.b ≤ 255

instance (col : RGB) : Decidable (colorOK col) := by
  unfold colorOK
  infer_instance

/-- The `_validate_inputs` checks on the modelled fields: each parameter is
range-checked independently (`num_rotations` 1–360, `img_side` 64–8192,
`charmax` 1–1000, crop widths 0–500, threshold 0–255, colour components
0–255, text non-empty and at most 10000 characters).  There is no check
relating `img_side` to `crop_width_x`. -/
def validateInputs (c : Config) : Bool :=
  decide (1 ≤ c.num_rotations ∧ c.num_rotations ≤ 360
    ∧ 64 ≤ c.img_side ∧ c.img_side ≤ 8192
    ∧ 1 ≤ c.charmax ∧ c.charmax ≤ 1000
    ∧ c.crop_width_x ≤ 500 ∧ c.crop_width_y ≤ 500
    ∧ c.darkness_threshold ≤ 255
    ∧ colorOK c.text_color ∧ colorOK c.background_color
    ∧ 0 < c.text.length ∧ c.text.length ≤ 10000)

/-! ### RadialStretcher (`draw_frame`, the per-column stretch loop)

The loop runs over columns `x` in `range(img_side)`; a column is processed
only when `|x - radius| < radius` with `radius = img_side/2`, which for
`0 ≤ x < N` fails exactly at `x = 0` (for any `N ≥ 1`).  Within an active
column it iterates rows `y` in `range(img_side)`, copies the source pixel
to the stretched destination row, and then, in the same iteration, clears
pixel `(x, y)` if it lies outside the circle of radius `radius - 2`.  The
destination buffer `circle_img` was pasted from the thresholded mask just
before the loop, so the fold starts from the source image itself. -/

/-- Fuel-limited binary search for the integer square root; with fuel
`n + 2` it computes `⌊√n⌋` (invariant `lo² ≤ n < hi²`, window halving). -/
def isqrtAux : ℕ → ℕ → ℕ → ℕ → ℕ
  | 0, _, lo, _ => lo
  | fuel + 1, n, lo, hi =>
    if hi ≤ lo + 1 then lo
    else
      let mid := (lo + hi) / 2
      if mid * mid ≤ n then isqrtAux fuel n mid hi else isqrtAux fuel n lo mid

/-- Kernel-computable integer square root `⌊√n⌋`. -/
def isqrt (n : ℕ) : ℕ := isqrtAux (n + 2) n 0 (n + 1)

/-- Ceiling square root `⌈√m⌉`. -/
def ceilSqrt (m : ℕ) : ℕ := if isqrt m * isqrt m = m then isqrt m else isqrt m + 1

/-- Chord-length square for column `x`: `Ysize² = 4·(radius² − d²)
= N² − (2x − N)²` with `d = |x − N/2|`; the code's `Ysize` is `√(colM)`. -/
def colM (N x : ℕ) : ℕ := N ^ 2 - (Int.natAbs (2 * (x : ℤ) - N)) ^ 2

/-- The column guard `distance_from_center < radius`, i.e. `|x − N/2| < N/2`,
embedded as `|2x − N| < N`. -/
def colActive (N x : ℕ) : Bool := decide (Int.natAbs (2 * (x : ℤ) - N) < N)

/-- The code's `Yoffset = int((N − Ysize)/2)`: with `Ysize = √(colM)` this
floor equals `(N − ⌈√(colM)⌉) / 2` in natural arithmetic. -/
def yOffset (N x : ℕ) : ℕ := (N - ceilSqrt (colM N x)) / 2

/-- The code's destination row `Y = Yoffset + int((Ysize/N)·y)`: the floor
`⌊√(colM)·y/N⌋` equals `⌊⌊√(colM·y²)⌋/N⌋`. -/
def destRow (N x y : ℕ) : ℕ := yOffset N x + isqrt (colM N x * y ^ 2) / N

/-- The transparency clip `sqrt((x−r)² + (y−r)²) >= r − 2` with `r = N/2`:
for `N ≥ 4` both sides are non-negative, and squaring and scaling by 4
gives `(2x − N)² + (2y − N)² ≥ (N − 4)²`. -/
def clipCond (N x y : ℕ) : Bool :=
  decide (((N : ℤ) - 4) ^ 2 ≤ (2 * (x : ℤ) - N) ^ 2 + (2 * (y : ℤ) - N) ^ 2)

/-- One iteration of the inner `for y in range(img_side)` loop of an active
column: copy the source pixel to the stretched row (when in range), then
apply the transparency clip to `(x, y)` — in this order, inside the same
iteration. -/
def stretchStep (N : ℕ) (bg : RGB) (src : Img) (x : ℕ) (buf : Img) (y : ℕ) : Img :=
  let dst := destRow N x y
  let buf1 := if dst < N then setPix buf x dst (src x y) else buf
  if clipCond N x y then setPix buf1 x y (bgClear bg) else buf1

/-- One iteration of the outer `for x in range(img_side)` loop: an inactive
column (`|x − N/2| ≥ N/2`) contributes nothing, an active one runs the row
loop. -/
def stretchCol (N : ℕ) (bg : RGB) (src : Img) (x : ℕ) (buf : Img) : Img :=
  if colActive N x then (List.range N).foldl (stretchStep N bg src x) buf else buf

/-- The whole radial stretch of `draw_frame`: the destination buffer starts
as a copy of the thresholded source mask (`circle_img.paste(self.img)`),
then every column is processed in order. -/
def radialStretch (N : ℕ) (bg : RGB) (src : Img) : Img :=
  (List.range N).foldl (fun buf x => stretchCol N bg src x buf) src

/-- Shorthand used in examples: the all-opaque black mask. -/
def blackInk : Img := fun _ _ => ⟨0, 0, 0, 255⟩

/-- Shorthand used in examples: white background colour. -/
def whiteRGB : RGB := ⟨255, 255, 255⟩

/-! ## Theorems -/

lemma foldl_charWeight (t : List Char) (acc : ℕ) :
    t.foldl (fun a c => a + charWeight c) acc = acc + (t.map charWeight).sum := by
  induction t generalizing acc with
  | nil => simp
  | cons c t ih => simp [List.foldl_cons, ih, Nat.add_assoc]

/-- C6. MaskRenderer thresholding: each output pixel of the vectorised
threshold block depends only on the corresponding input pixel, and equals
the transparent background colour when its brightness (green) channel is
`≥ darkness_threshold`, and the opaque text colour when it is below. -/
theorem thresholdImg_classifies (thr : ℕ) (bg tc : RGB) (img : Img) (x y : ℕ) :
    thresholdImg thr bg tc img x y = thresholdPix thr bg tc (img x y)
    ∧ (thr ≤ (img x y).g → thresholdImg thr bg tc img x y = bgClear bg)
    ∧ ((img x y).g < thr → thresholdImg thr bg tc img x y = textSolid tc) := by
  refine ⟨rfl, ?_, ?_⟩
  · intro h
    simp [thresholdImg, thresholdPix, h, Nat.not_lt.mpr h]
  · intro h
    simp [thresholdImg, thresholdPix, h]

/-- Witness for C6 at a concrete buffer: a pixel of brightness 200 under
threshold 116 becomes the transparent background, one of brightness 20
becomes the opaque text colour. -/
theorem thresholdImg_classifies_witness :
    thresholdImg 116 ⟨255, 255, 255⟩ ⟨0, 0, 0⟩ (fun _ _ => ⟨200, 200, 200, 255⟩) 3 4
        = bgClear ⟨255, 255, 255⟩
    ∧ thresholdImg 116 ⟨255, 255, 255⟩ ⟨0, 0, 0⟩ (fun _ _ => ⟨20, 20, 20, 255⟩) 3 4
        = textSolid ⟨0, 0, 0⟩ :=
  ⟨(thresholdImg_classifies 116 ⟨255, 255, 255⟩ ⟨0, 0, 0⟩
      (fun _ _ => ⟨200, 200, 200, 255⟩) 3 4).2.1 (by decide),
   (thresholdImg_classifies 116 ⟨255, 255, 255⟩ ⟨0, 0, 0⟩
      (fun _ _ => ⟨20, 20, 20, 255⟩) 3 4).2.2 (by decide)⟩

/-- C9. Compositor idempotence: `alpha_to_white` applied twice equals one
application, and after one pass no pixel has alpha 0. -/
theorem alphaToWhite_idempotent (bg : RGB) (img : Img) :
    alphaToWhite bg (alphaToWhite bg img) = alphaToWhite bg img
    ∧ ∀ x y, (alphaToWhite bg img x y).a ≠ 0 := by
  constructor
  · funext x y
    by_cases h : (img x y).a = 0 <;> simp [alphaToWhite, h]
  · intro x y
    by_cases h : (img x y).a = 0 <;> simp [alphaToWhite, h, bgSolid]

/-- C8. FontSizeEstimator: `estimate_font_size` is a total function of the
text, its value is exactly `int(280 − 18.7·(Σ weights · 6/1000))` clamped to
`[60, 220]`, and in particular always lies in `[60, 220]`. -/
theorem estimateFontSize_eq_formula (t : List Char) :
    estimateFontSize t = guessFormula t
    ∧ 60 ≤ estimateFontSize t ∧ estimateFontSize t ≤ 220 := by
  have hsum : t.foldl (fun a c => a + charWeight c) 0 = (t.map charWeight).sum := by
    simpa using foldl_charWeight t 0
  have hfrm : estimateFontSize t = guessFormula t := by
    unfold estimateFontSize guessFormula
    rw [hsum]
    norm_num
  refine ⟨hfrm, ?_, ?_⟩
  · exact le_min (le_max_right _ _) (by norm_num)
  · exact min_le_right _ _

/-- C7. Stamper overwrite order: with `num_rotations = 2` (angles 0° and
90°), at any coordinate where both rotated copies are opaque the result is
the `i = 1` copy's pixel; in general a transparent source pixel leaves the
accumulator unchanged and an opaque one overwrites it, and the two stamp
angles are `0` and `90` degrees. -/
theorem stamp_overwrite_order (rot : ℚ → Img → Img) (mask acc : Img) (x y : ℕ) :
    ((rot (stampAngle 2 0) mask x y).a = 255 → (rot (stampAngle 2 1) mask x y).a = 255 →
      stamp rot 2 mask acc x y = rot (stampAngle 2 1) mask x y)
    ∧ (∀ src : Img, (src x y).a = 0 → pasteMask acc src x y = acc x y)
    ∧ (∀ src : Img, (src x y).a = 255 → pasteMask acc src x y = src x y)
    ∧ stampAngle 2 0 = 0 ∧ stampAngle 2 1 = 90 := by
  refine ⟨?_, ?_, ?_, by norm_num [stampAngle], by norm_num [stampAngle]⟩
  · intro h0 h1
    simp [stamp, List.range_succ, pasteMask, h1]
  · intro src h
    simp [pasteMask, h]
  · intro src h
    simp [pasteMask, h]

/-- Witness for C7: a rotation capability that returns the mask itself at
angle 0 and an all-red opaque buffer at any other angle; both copies are
opaque everywhere, and the stamp holds the second (90°) copy's pixel. -/
theorem stamp_overwrite_order_witness :
    stamp (fun q img => if q = 0 then img else fun _ _ => ⟨255, 0, 0, 255⟩) 2
        blackInk (fun _ _ => ⟨9, 9, 9, 9⟩) 5 6
      = ⟨255, 0, 0, 255⟩ := by
  have h := (stamp_overwrite_order
      (fun q img => if q = 0 then img else fun _ _ => ⟨255, 0, 0, 255⟩)
      blackInk (fun _ _ => ⟨9, 9, 9, 9⟩) 5 6).1
      (by norm_num [stampAngle, blackInk]) (by norm_num [stampAngle])
  rw [h]
  norm_num [stampAngle]

/-! ### Binary-search termination -/

lemma searchRun_stop (probe : ℕ → Option Bool) (fuel : ℕ) (s : SearchState)
    (h : ¬ s.lo ≤ s.hi) : searchRun probe fuel s = s.best := by
  cases fuel <;> simp [searchRun, h]

lemma searchBody_lo (probe : ℕ → Option Bool) (s : SearchState) (hlo : 1 ≤ s.lo) :
    1 ≤ (searchBody probe s).lo := by
  rcases hp : probe ((s.lo + s.hi) / 2) with _ | b
  · simpa [searchBody, hp] using hlo
  · cases b
    · simpa [searchBody, hp] using hlo
    · simp [searchBody, hp]

lemma searchBody_window (probe : ℕ → Option Bool) (s : SearchState)
    (h : s.lo ≤ s.hi) (hlo : 1 ≤ s.lo) :
    (searchBody probe s).hi + 1 - (searchBody probe s).lo ≤ (s.hi + 1 - s.lo) / 2 := by
  rcases hp : probe ((s.lo + s.hi) / 2) with _ | b
  · simp [searchBody, hp]
    omega
  · cases b <;> simp [searchBody, hp] <;> omega

lemma searchStep_lo (probe : ℕ → Option Bool) (s : SearchState) (hlo : 1 ≤ s.lo) :
    1 ≤ (searchStep probe s).lo := by
  unfold searchStep
  by_cases h : s.lo ≤ s.hi
  · simpa [h] using searchBody_lo probe s hlo
  · simpa [h] using hlo

lemma searchStep_window (probe : ℕ → Option Bool) (s : SearchState) (hlo : 1 ≤ s.lo) :
    (searchStep probe s).hi + 1 - (searchStep probe s).lo ≤ (s.hi + 1 - s.lo) / 2 := by
  unfold searchStep
  by_cases h : s.lo ≤ s.hi
  · simpa [h] using searchBody_window probe s h hlo
  · simp [h]
    omega

lemma searchStep_iterate_window (probe : ℕ → Option Bool) (k : ℕ) (s : SearchState)
    (hlo : 1 ≤ s.lo) :
    ((searchStep probe)^[k] s).hi + 1 - ((searchStep probe)^[k] s).lo
      ≤ (s.hi + 1 - s.lo) / 2 ^ k := by
  induction k generalizing s with
  | zero => simp
  | succ k ih =>
    rw [Function.iterate_succ_apply]
    calc ((searchStep probe)^[k] (searchStep probe s)).hi + 1
          - ((searchStep probe)^[k] (searchStep probe s)).lo
        ≤ ((searchStep probe s).hi + 1 - (searchStep probe s).lo) / 2 ^ k :=
          ih _ (searchStep_lo probe s hlo)
      _ ≤ ((s.hi + 1 - s.lo) / 2) / 2 ^ k :=
          Nat.div_le_div_right (searchStep_window probe s hlo)
      _ = (s.hi + 1 - s.lo) / 2 ^ (k + 1) := by
          rw [Nat.div_div_eq_div_mul, pow_succ, mul_comm]

lemma searchRun_fuel_insensitive (probe : ℕ → Option Bool) :
    ∀ (k f : ℕ) (s : SearchState), 1 ≤ s.lo → s.hi + 1 - s.lo ≤ 2 ^ k - 1 →
      searchRun probe (k + f) s = searchRun probe k s := by
  intro k
  induction k with
  | zero =>
    intro f s _ hw
    have h : ¬ s.lo ≤ s.hi := by
      simp only [pow_zero] at hw
      omega
    rw [searchRun_stop probe _ _ h]
    rfl
  | succ k ih =>
    intro f s hlo hw
    by_cases h : s.lo ≤ s.hi
    · have e1 : k + 1 + f = (k + f) + 1 := by omega
      rw [e1]
      show searchRun probe ((k + f) + 1) s = searchRun probe (k + 1) s
      simp only [searchRun, h, if_true]
      have hb := searchBody_window probe s h hlo
      have hpow : (1 : ℕ) ≤ 2 ^ k := Nat.one_le_two_pow
      have hw' : (searchBody probe s).hi + 1 - (searchBody probe s).lo ≤ 2 ^ k - 1 := by
        have h2 : (2 : ℕ) ^ (k + 1) = 2 * 2 ^ k := by rw [pow_succ, mul_comm]
        omega
      exact ih f (searchBody probe s) (searchBody_lo probe s hlo) hw'
    · rw [searchRun_stop probe _ _ h, searchRun_stop probe _ _ h]

lemma search_window_le_61 (guess : ℕ) : hiBound guess + 1 - loBound guess ≤ 61 := by
  unfold hiBound loBound
  omega

/-- C10. The font-size search window `[max(guess−30,10), min(guess+30,350)]`
contains at most 61 integer sizes, so the `while min_size <= max_size`
loop reaches `min_size > max_size` within 7 iterations for every probe and
every initial guess, strictly before the 15-iteration cap: running the loop
with any fuel of at least 7 — in particular the code's 15 — produces the
same result, so the cap never cuts a search short. -/
theorem searchRun_cap_never_binds (probe : ℕ → Option Bool) (guess : ℕ) :
    hiBound guess + 1 - loBound guess ≤ 61
    ∧ (∀ f, searchRun probe (7 + f) ⟨loBound guess, hiBound guess, none⟩
        = searchRun probe 7 ⟨loBound guess, hiBound guess, none⟩)
    ∧ searchRun probe 15 ⟨loBound guess, hiBound guess, none⟩
        = searchRun probe 7 ⟨loBound guess, hiBound guess, none⟩
    ∧ ¬ (((searchStep probe)^[7] ⟨loBound guess, hiBound guess, none⟩).lo
        ≤ ((searchStep probe)^[7] ⟨loBound guess, hiBound guess, none⟩).hi) := by
  have hw : (SearchState.mk (loBound guess) (hiBound guess) none).hi + 1
      - (SearchState.mk (loBound guess) (hiBound guess) none).lo ≤ 61 :=
    search_window_le_61 guess
  have hlo1 : (1 : ℕ) ≤ (SearchState.mk (loBound guess) (hiBound guess) none).lo := by
    show 1 ≤ loBound guess
    unfold loBound
    omega
  have hfuel : ∀ f, searchRun probe (7 + f) ⟨loBound guess, hiBound guess, none⟩
      = searchRun probe 7 ⟨loBound guess, hiBound guess, none⟩ := by
    intro f
    exact searchRun_fuel_insensitive probe 7 f _ hlo1 (by simpa using hw.trans (by norm_num))
  refine ⟨search_window_le_61 guess, hfuel, ?_, ?_⟩
  · have h15 := hfuel 8
    simpa using h15
  · have hit := searchStep_iterate_window probe 7 ⟨loBound guess, hiBound guess, none⟩ hlo1
    have : ((searchStep probe)^[7] ⟨loBound guess, hiBound guess, none⟩).hi + 1
        - ((searchStep probe)^[7] ⟨loBound guess, hiBound guess, none⟩).lo ≤ 61 / 2 ^ 7 := by
      exact hit.trans (Nat.div_le_div_right hw)
    omega

/-! ### Binary-search optimality -/

lemma searchRun_finds_greatest (width : ℕ → ℤ) (limit : ℤ) (hi0 : ℕ)
    (hmono : ∀ a b : ℕ, a ≤ b → width a ≤ width b)
    (m : ℕ) (hmP : width m < limit)
    (hgr : ∀ k, m < k → k ≤ hi0 → ¬ (width k < limit)) :
    ∀ (fuel : ℕ) (s : SearchState), s.hi ≤ hi0 → s.hi + 1 - s.lo ≤ 2 ^ fuel - 1 →
      ((s.lo ≤ m ∧ m ≤ s.hi) ∨ (m < s.lo ∧ s.best = some m)) →
      searchRun (fitsProbe width limit) fuel s = some m := by
  intro fuel
  induction fuel with
  | zero =>
    intro s _ hw hinv
    rcases hinv with ⟨h1, h2⟩ | ⟨_, h2⟩
    · exfalso
      simp only [pow_zero] at hw
      omega
    · simpa [searchRun] using h2
  | succ fuel ih =>
    intro s hhi hw hinv
    by_cases h : s.lo ≤ s.hi
    · have hstep : searchRun (fitsProbe width limit) (fuel + 1) s
          = searchRun (fitsProbe width limit) fuel (searchBody (fitsProbe width limit) s) := by
        simp [searchRun, h]
      rw [hstep]
      have hmid_le : (s.lo + s.hi) / 2 ≤ s.hi := by omega
      have hmid_ge : s.lo ≤ (s.lo + s.hi) / 2 := by omega
      have hpow : (1 : ℕ) ≤ 2 ^ fuel := Nat.one_le_two_pow
      have h2pow : (2 : ℕ) ^ (fuel + 1) = 2 * 2 ^ fuel := by rw [pow_succ, mul_comm]
      by_cases hp : width ((s.lo + s.hi) / 2) < limit
      · have hbody : searchBody (fitsProbe width limit) s
            = ⟨(s.lo + s.hi) / 2 + 1, s.hi, some ((s.lo + s.hi) / 2)⟩ := by
          simp [searchBody, fitsProbe, hp]
        have hmle : (s.lo + s.hi) / 2 ≤ m := by
          by_contra hc
          push_neg at hc
          exact hgr _ hc (le_trans hmid_le hhi) hp
        rw [hbody]
        refine ih ⟨(s.lo + s.hi) / 2 + 1, s.hi, some ((s.lo + s.hi) / 2)⟩ hhi ?_ ?_
        · show s.hi + 1 - ((s.lo + s.hi) / 2 + 1) ≤ 2 ^ fuel - 1
          omega
        · rcases hinv with ⟨h1, h2⟩ | ⟨h1, _⟩
          · rcases eq_or_lt_of_le hmle with he | hlt
            · right
              refine ⟨?_, ?_⟩
              · show m < (s.lo + s.hi) / 2 + 1
                omega
              · show some ((s.lo + s.hi) / 2) = some m
                rw [he]
            · left
              refine ⟨?_, h2⟩
              show (s.lo + s.hi) / 2 + 1 ≤ m
              omega
          · exfalso
            exact hgr _ (lt_of_lt_of_le h1 hmid_ge) (le_trans hmid_le hhi) hp
      · have hbody : searchBody (fitsProbe width limit) s
            = ⟨s.lo, (s.lo + s.hi) / 2 - 1, s.best⟩ := by
          simp [searchBody, fitsProbe, hp]
        have hmlt : m < (s.lo + s.hi) / 2 := by
          by_contra hc
          push_neg at hc
          exact hp (lt_of_le_of_lt (hmono _ m hc) hmP)
        rw [hbody]
        refine ih ⟨s.lo, (s.lo + s.hi) / 2 - 1, s.best⟩ ?_ ?_ ?_
        · show (s.lo + s.hi) / 2 - 1 ≤ hi0
          omega
        · show ((s.lo + s.hi) / 2 - 1) + 1 - s.lo ≤ 2 ^ fuel - 1
          omega
        · rcases hinv with ⟨h1, _⟩ | ⟨h1, h2⟩
          · left
            refine ⟨h1, ?_⟩
            show m ≤ (s.lo + s.hi) / 2 - 1
            omega
          · right
            exact ⟨h1, h2⟩
    · rcases hinv with ⟨h1, h2⟩ | ⟨_, h2⟩
      · exact absurd (le_trans h1 h2) h
      · rw [searchRun_stop _ _ _ h]
        exact h2

/-- C2. FontFitter optimality: when the padded bounding-box width is
monotone in font size and at least one size in the window
`[max(guess−30,10), min(guess+30,350)]` fits (width strictly below
`img_side − 2·crop_width_x`, abstracted as `limit`), `get_fontsize`
returns exactly the greatest fitting size of the window: it fits, it is in
the window, and every fitting size of the window is at most it. -/
theorem getFontsize_returns_max_fitting (width : ℕ → ℤ) (limit : ℤ) (guess s0 : ℕ)
    (hmono : ∀ a b : ℕ, a ≤ b → width a ≤ width b)
    (hlo : loBound guess ≤ s0) (hhi : s0 ≤ hiBound guess) (hfit : width s0 < limit) :
    getFontsize (fitsProbe width limit) guess
      = some (Nat.findGreatest (fitsPred width limit) (hiBound guess))
    ∧ loBound guess ≤ Nat.findGreatest (fitsPred width limit) (hiBound guess)
    ∧ width (Nat.findGreatest (fitsPred width limit) (hiBound guess)) < limit
    ∧ ∀ t, loBound guess ≤ t → t ≤ hiBound guess → width t < limit →
        t ≤ Nat.findGreatest (fitsPred width limit) (hiBound guess) := by
  have hfit' : fitsPred width limit s0 := hfit
  have hPM : fitsPred width limit (Nat.findGreatest (fitsPred width limit) (hiBound guess)) :=
    Nat.findGreatest_spec hhi hfit'
  have hs0M : s0 ≤ Nat.findGreatest (fitsPred width limit) (hiBound guess) :=
    Nat.le_findGreatest hhi hfit'
  have hMhi : Nat.findGreatest (fitsPred width limit) (hiBound guess) ≤ hiBound guess :=
    Nat.findGreatest_le _
  have hgr : ∀ k, Nat.findGreatest (fitsPred width limit) (hiBound guess) < k →
      k ≤ hiBound guess → ¬ (width k < limit) :=
    fun _ hk hkb => Nat.findGreatest_is_greatest hk hkb
  have hrun := searchRun_finds_greatest width limit (hiBound guess) hmono _ hPM hgr
    15 ⟨loBound guess, hiBound guess, none⟩ (le_refl _)
    (le_trans (search_window_le_61 guess) (by norm_num))
    (Or.inl ⟨le_trans hlo hs0M, hMhi⟩)
  refine ⟨?_, le_trans hlo hs0M, hPM, fun t _ h2 h3 => Nat.le_findGreatest h2 h3⟩
  unfold getFontsize
  rw [hrun]

/-- Witness for C2 with `width s = s` and `limit = 101`, `guess = 100`:
window `[70, 130]`, greatest fitting size 100, and `get_fontsize` returns
exactly `some 100`. -/
theorem getFontsize_returns_max_fitting_witness :
    getFontsize (fitsProbe (fun s => (s : ℤ)) 101) 100 = some 100 := by
  have h := (getFontsize_returns_max_fitting (fun s => (s : ℤ)) 101 100 100
      (fun a b hab => Int.ofNat_le.mpr hab) (by decide) (by decide) (by decide)).1
  exact h.trans (by decide)

/-! ### Absence of a geometry pre-check (`_validate_inputs` / `get_fontsize`) -/

lemma searchBody_best_none (probe : ℕ → Option Bool) (s : SearchState)
    (hnp : ∀ t, probe t ≠ some true) (hb : s.best = none) :
    (searchBody probe s).best = none := by
  rcases hp : probe ((s.lo + s.hi) / 2) with _ | b
  · simpa [searchBody, hp] using hb
  · cases b
    · simpa [searchBody, hp] using hb
    · exact absurd hp (hnp _)

lemma searchRun_no_fit (probe : ℕ → Option Bool) (hnp : ∀ t, probe t ≠ some true) :
    ∀ (fuel : ℕ) (s : SearchState), s.best = none → searchRun probe fuel s = none := by
  intro fuel
  induction fuel with
  | zero =>
    intro s hb
    simpa [searchRun] using hb
  | succ fuel ih =>
    intro s hb
    by_cases h : s.lo ≤ s.hi
    · simp only [searchRun, h, if_true]
      exact ih _ (searchBody_best_none probe s hnp hb)
    · simpa [searchRun_stop probe _ _ h] using hb

lemma find?_no_fit (probe : ℕ → Option Bool) (hnp : ∀ t, probe t ≠ some true)
    (l : List ℕ) : l.find? (fun s => probe s == some true) = none := by
  apply List.find?_eq_none.mpr
  intro x _
  simpa using hnp x

lemma testFontSize_never_fits (rb : ℕ → Option BBox) (cwx side : ℤ)
    (hbb : ∀ s bb, rb s = some bb → bb.x0 < bb.x1)
    (hcwx : 0 ≤ cwx) (hgeom : side ≤ 2 * cwx) :
    ∀ s, testFontSize rb cwx side s ≠ some true := by
  intro s
  rcases hr : rb s with _ | bb
  · simp [testFontSize, hr]
  · have hw := hbb s bb hr
    simp only [testFontSize, hr, ne_eq, Option.some.injEq, decide_eq_true_eq]
    omega

/-- C5 (amended). There is no geometry pre-check: a configuration with
`img_side ≤ 2·crop_width_x` (here `img_side = 64`, `crop_width_x = 36`)
passes `_validate_inputs` and `check_length` untouched, so nothing fails
before the font-size search; and for every rasterizer, every crop padding
`cwx ≥ 0` and every canvas `side ≤ 2·cwx`, every probe fails the
fits-predicate, so `get_fontsize` runs its binary search and linear
fallback to completion and only then fails (the `RuntimeError` path,
modelled as `none`) — not with an `InvalidGeometryError`, which does not
exist in the code. -/
theorem no_geometry_precheck :
    validateInputs ⟨['A'], ⟨0, 0, 0⟩, ⟨255, 255, 255⟩, 64, 36, 5, 116, 6, 22⟩ = true
    ∧ check_length ⟨['A'], ⟨0, 0, 0⟩, ⟨255, 255, 255⟩, 64, 36, 5, 116, 6, 22⟩
        = Except.ok ⟨['A'], ⟨0, 0, 0⟩, ⟨255, 255, 255⟩, 64, 36, 5, 116, 6, 22⟩
    ∧ ∀ (rb : ℕ → Option BBox) (cwx side : ℤ) (guess : ℕ),
        (∀ s bb, rb s = some bb → bb.x0 < bb.x1) → 0 ≤ cwx → side ≤ 2 * cwx →
        getFontsize (testFontSize rb cwx side) guess = none := by
  refine ⟨by decide, by rfl, ?_⟩
  intro rb cwx side guess hbb hcwx hgeom
  have hnp := testFontSize_never_fits rb cwx side hbb hcwx hgeom
  unfold getFontsize
  rw [searchRun_no_fit _ hnp 15 _ rfl]
  exact find?_no_fit _ hnp _

/-- Witness for C5's amended statement: the concrete rasterizer returning
the unit box `(0,0,1,1)` at every size, `crop_width_x = 36`,
`img_side = 64 ≤ 72`: the whole search fails only after running. -/
theorem no_geometry_precheck_witness :
    getFontsize (testFontSize (fun _ => some ⟨0, 0, 1, 1⟩) 36 64) 140 = none :=
  (no_geometry_precheck).2.2 (fun _ => some ⟨0, 0, 1, 1⟩) 36 64 140
    (fun s bb h => by cases h; decide) (by decide) (by decide)

/-- Counterexample to C5 as stated: the geometry-violating configuration
`img_side = 64`, `crop_width_x = 36` (`64 ≤ 2·36`) passes input
validation — no `InvalidGeometryError` is raised before the search — and
the search itself runs to completion and fails afterwards (the code's
`RuntimeError`, modelled `none`). -/
theorem no_geometry_precheck_cex :
    validateInputs ⟨['A'], ⟨0, 0, 0⟩, ⟨255, 255, 255⟩, 64, 36, 5, 116, 6, 22⟩ = true
    ∧ (64 : ℕ) ≤ 2 * 36
    ∧ getFontsize (testFontSize (fun _ => some ⟨0, 0, 1, 1⟩) 36 64) 140 = none := by
  refine ⟨by decide, by decide, by decide⟩

/-! ### RadialStretcher structure lemmas -/

lemma stretchStep_other (N : ℕ) (bg : RGB) (src : Img) (x : ℕ) (buf : Img) (y u v : ℕ)
    (hu : u ≠ x) : stretchStep N bg src x buf y u v = buf u v := by
  unfold stretchStep setPix
  split_ifs <;> simp_all

lemma foldl_stretchStep_other (N : ℕ) (bg : RGB) (src : Img) (x u v : ℕ) (hu : u ≠ x) :
    ∀ (l : List ℕ) (buf : Img), (l.foldl (stretchStep N bg src x) buf) u v = buf u v := by
  intro l
  induction l with
  | nil => intro buf; rfl
  | cons y t ih =>
    intro buf
    rw [List.foldl_cons, ih, stretchStep_other N bg src x buf y u v hu]

lemma stretchCol_other (N : ℕ) (bg : RGB) (src : Img) (x : ℕ) (buf : Img) (u v : ℕ)
    (hu : u ≠ x) : stretchCol N bg src x buf u v = buf u v := by
  unfold stretchCol
  split_ifs
  · exact foldl_stretchStep_other N bg src x u v hu _ buf
  · rfl

lemma stretchStep_agree (N : ℕ) (bg : RGB) (src : Img) (x : ℕ) (buf buf' : Img)
    (y u v : ℕ) (h : buf u v = buf' u v) :
    stretchStep N bg src x buf y u v = stretchStep N bg src x buf' y u v := by
  unfold stretchStep setPix
  split_ifs <;> simp_all

lemma foldl_stretchStep_agree (N : ℕ) (bg : RGB) (src : Img) (x u v : ℕ) :
    ∀ (l : List ℕ) (buf buf' : Img), buf u v = buf' u v →
      (l.foldl (stretchStep N bg src x) buf) u v = (l.foldl (stretchStep N bg src x) buf') u v := by
  intro l
  induction l with
  | nil => intro buf buf' h; exact h
  | cons y t ih =>
    intro buf buf' h
    rw [List.foldl_cons, List.foldl_cons]
    exact ih _ _ (stretchStep_agree N bg src x buf buf' y u v h)

lemma stretchCol_agree (N : ℕ) (bg : RGB) (src : Img) (x : ℕ) (buf buf' : Img) (u v : ℕ)
    (h : buf u v = buf' u v) :
    stretchCol N bg src x buf u v = stretchCol N bg src x buf' u v := by
  unfold stretchCol
  split_ifs
  · exact foldl_stretchStep_agree N bg src x u v _ buf buf' h
  · exact h

lemma foldl_stretchCol_other (N : ℕ) (bg : RGB) (src : Img) (u v : ℕ) :
    ∀ (l : List ℕ) (buf : Img), (∀ x' ∈ l, x' ≠ u) →
      (l.foldl (fun b x' => stretchCol N bg src x' b) buf) u v = buf u v := by
  intro l
  induction l with
  | nil => intro buf _; rfl
  | cons c t ih =>
    intro buf hl
    rw [List.foldl_cons, ih _ (fun x' hx' => hl x' (List.mem_cons_of_mem c hx'))]
    exact stretchCol_other N bg src c buf u v (fun he => (hl c (List.mem_cons_self c t)) he.symm)

lemma foldl_stretchCol_mem (N : ℕ) (bg : RGB) (src : Img) (u v : ℕ) :
    ∀ (l : List ℕ), l.Nodup → u ∈ l → ∀ buf : Img,
      (l.foldl (fun b x' => stretchCol N bg src x' b) buf) u v
        = stretchCol N bg src u buf u v := by
  intro l
  induction l with
  | nil => intro _ hu; cases hu
  | cons c t ih =>
    intro hnd hu buf
    rw [List.foldl_cons]
    rcases List.mem_cons.mp hu with he | ht
    · subst he
      have hut : u ∉ t := (List.nodup_cons.mp hnd).1
      exact foldl_stretchCol_other N bg src u v t _ (fun x' hx' he => hut (he ▸ hx'))
    · have hcu : c ≠ u := by
        intro he
        subst he
        exact (List.nodup_cons.mp hnd).1 ht
      rw [ih (List.nodup_cons.mp hnd).2 ht _]
      exact stretchCol_agree N bg src u _ buf u v
        (stretchCol_other N bg src c buf u v (fun he => hcu he.symm))

lemma radialStretch_pointwise (N : ℕ) (bg : RGB) (src : Img) (u v : ℕ) (hu : u < N) :
    radialStretch N bg src u v = stretchCol N bg src u src u v :=
  foldl_stretchCol_mem N bg src u v (List.range N) (List.nodup_range N)
    (List.mem_range.mpr hu) src

lemma radialStretch_out (N : ℕ) (bg : RGB) (src : Img) (u v : ℕ) (hu : ¬ u < N) :
    radialStretch N bg src u v = src u v :=
  foldl_stretchCol_other N bg src u v (List.range N) src
    (fun _ hx' he => hu (he ▸ List.mem_range.mp hx'))

lemma radialStretch_inactive (N : ℕ) (bg : RGB) (src : Img) (u v : ℕ)
    (hact : colActive N u = false) : radialStretch N bg src u v = src u v := by
  by_cases hu : u < N
  · rw [radialStretch_pointwise N bg src u v hu]
    unfold stretchCol
    rw [hact]
    simp
  · exact radialStretch_out N bg src u v hu

lemma stretchStep_pres_row (N : ℕ) (bg : RGB) (src : Img) (x : ℕ) (buf : Img) (y t : ℕ)
    (hy : y ≠ t) (hd : destRow N x y ≠ t) :
    stretchStep N bg src x buf y x t = buf x t := by
  have hy' : t ≠ y := fun he => hy he.symm
  have hd' : t ≠ destRow N x y := fun he => hd he.symm
  unfold stretchStep setPix
  split_ifs <;> simp_all

lemma foldl_stretchStep_pres_row (N : ℕ) (bg : RGB) (src : Img) (x t : ℕ) :
    ∀ (l : List ℕ) (buf : Img), (∀ y' ∈ l, y' ≠ t ∧ destRow N x y' ≠ t) →
      (l.foldl (stretchStep N bg src x) buf) x t = buf x t := by
  intro l
  induction l with
  | nil => intro buf _; rfl
  | cons y s ih =>
    intro buf hl
    rw [List.foldl_cons, ih _ (fun y' hy' => hl y' (List.mem_cons_of_mem y hy'))]
    exact stretchStep_pres_row N bg src x buf y t (hl y (List.mem_cons_self y s)).1
      (hl y (List.mem_cons_self y s)).2

lemma stretchStep_clip (N : ℕ) (bg : RGB) (src : Img) (x : ℕ) (buf : Img) (t : ℕ)
    (hc : clipCond N x t = true) :
    stretchStep N bg src x buf t x t = bgClear bg := by
  unfold stretchStep setPix
  rw [hc]
  simp

lemma stretchCol_clip (N : ℕ) (bg : RGB) (src : Img) (x : ℕ) (buf : Img) (t : ℕ)
    (hact : colActive N x = true) (ht : t < N) (hc : clipCond N x t = true)
    (hlate : ∀ y', y' < N → t < y' → destRow N x y' ≠ t) :
    stretchCol N bg src x buf x t = bgClear bg := by
  unfold stretchCol
  rw [hact]
  simp only [if_true]
  have hsplit : List.range N = List.range (t + 1) ++ (List.range (N - (t + 1))).map ((t + 1) + ·) := by
    rw [← List.range_add]
    congr 1
    omega
  rw [hsplit, List.foldl_append]
  rw [foldl_stretchStep_pres_row N bg src x t _ _ ?later]
  case later =>
    intro y' hy'
    rcases List.mem_map.mp hy' with ⟨k, hk, hky⟩
    have hkN : k < N - (t + 1) := List.mem_range.mp hk
    constructor
    · omega
    · exact hlate y' (by omega) (by omega)
  rw [List.range_succ, List.foldl_append]
  exact stretchStep_clip N bg src x _ t hc

/-- C1 (amended). RadialStretcher containment with the two code caveats:
the transparency clip of `draw_frame` forces the pixel `(x, t)` with
`sqrt((x−N/2)² + (t−N/2)²) ≥ N/2 − 2` (embedded as `clipCond`) to the
transparent background only for an active column (`|x − N/2| < N/2`; the
skipped columns, `x = 0` for `0 ≤ x < N`, are passed through from the
pasted source mask and never clipped), and only when no later source row
`y' > t` of the same column is copied onto destination row `t` — because
the clip at row `t` runs at inner-loop iteration `t`, interleaved with the
column copy rather than after it, a later copy can overwrite the cleared
pixel. -/
theorem radialStretch_containment (N : ℕ) (bg : RGB) (src : Img) (x t : ℕ)
    (hx : x < N) (hact : colActive N x = true) (ht : t < N)
    (hc : clipCond N x t = true)
    (hlate : ∀ y', y' < N → t < y' → destRow N x y' ≠ t) :
    radialStretch N bg src x t = bgClear bg := by
  rw [radialStretch_pointwise N bg src x t hx]
  exact stretchCol_clip N bg src x src t hact ht hc hlate

/-- Witness for C1's amended statement at `N = 64`, column `x = 1`, row
`t = 0` on the all-opaque mask: the column is active, the pixel is outside
the `r − 2` circle, no later source row lands on row 0 (the least
destination row of this column is `Yoffset = 24`), and the output pixel is
indeed the transparent background. -/
theorem radialStretch_containment_witness :
    radialStretch 64 whiteRGB blackInk 1 0 = bgClear whiteRGB :=
  radialStretch_containment 64 whiteRGB blackInk 1 0 (by decide) (by decide)
    (by decide) (by decide) (by decide)

/-- Counterexample to C1 as stated: on the all-opaque input mask with
`N = 64`, the output pixel `(0, 0)` satisfies the claim's distance
condition (`sqrt((0−32)² + (0−32)²) ≈ 45.3 ≥ 30 = N/2 − 2`, embedded as
`clipCond 64 0 0 = true`) yet keeps alpha 255: column 0 has
`|x − radius| = radius`, so `draw_frame` skips it entirely — including its
transparency clip — and the pasted source pixels survive. -/
theorem radialStretch_containment_cex :
    clipCond 64 0 0 = true ∧ (radialStretch 64 whiteRGB blackInk 0 0).a = 255 := by
  constructor
  · decide
  · rw [radialStretch_inactive 64 whiteRGB blackInk 0 0 (by decide)]
    rfl

/-- C3 (amended). A column with `d = |x − N/2| ≥ N/2` (for `0 ≤ x < N`,
exactly column `x = 0`) is skipped by the stretch loop entirely: the output
there equals the input mask pixel — not the transparent background, because
the output buffer starts as a pasted copy of the input mask
(`circle_img.paste(self.img)`) rather than fully transparent, and skipped
columns receive neither copies nor the transparency clip. -/
theorem radialStretch_skipped_column (N : ℕ) (bg : RGB) (src : Img) (x y : ℕ)
    (hact : colActive N x = false) :
    radialStretch N bg src x y = src x y :=
  radialStretch_inactive N bg src x y hact

/-- Witness for C3's amended statement: at `N = 64`, column 0 is inactive
and the output pixel `(0, 5)` equals the input mask's pixel there. -/
theorem radialStretch_skipped_column_witness :
    radialStretch 64 whiteRGB blackInk 0 5 = Pix.mk 0 0 0 255 :=
  radialStretch_skipped_column 64 whiteRGB blackInk 0 5 (by decide)

/-- Counterexample to C3 as stated: the claim demands every pixel of a
skipped column (`x = 0` at `N = 64`) be background-coloured with alpha 0
regardless of the input, but on the all-opaque input mask the output pixel
`(0, 7)` is the source's opaque black pixel with alpha 255. -/
theorem radialStretch_skipped_column_cex :
    radialStretch 64 whiteRGB blackInk 0 7 = Pix.mk 0 0 0 255
    ∧ (radialStretch 64 whiteRGB blackInk 0 7).a ≠ 0 := by
  have h := radialStretch_inactive 64 whiteRGB blackInk 0 7 (by decide)
  exact ⟨h, by rw [h]; decide⟩

/-! ### Config lifecycle (`create` / `check_length`) -/

lemma check_length_truncates (c : Config) (ht : 0 < c.text.length) (hc : 0 < c.charmax) :
    check_length c = Except.ok { c with text := c.text.take c.charmax } := by
  unfold check_length
  by_cases h : c.charmax < c.text.length
  · simp only [h, if_true]
    rw [if_neg]
    simp only [List.length_take]
    omega
  · simp only [h, if_false]
    have hto : c.text.take c.charmax = c.text := List.take_of_length_le (by omega)
    rw [hto, if_neg (by omega)]

/-- C4 (amended). The configuration is not left untouched by `create()`:
its first step `check_length` truncates `illusion_text` to `charmax`
characters whenever the text is longer, so the text field after the run is
`text.take charmax`; for any nonempty text of at most `charmax` characters
(and all the other RenderConfig fields in every case) the configuration is
returned unchanged and no error is raised. -/
theorem create_truncates_config (c : Config) :
    (0 < c.text.length → 0 < c.charmax →
      check_length c = Except.ok { c with text := c.text.take c.charmax })
    ∧ (0 < c.text.length → c.text.length ≤ c.charmax → check_length c = Except.ok c) := by
  refine ⟨check_length_truncates c, fun ht hle => ?_⟩
  rw [check_length_truncates c ht (by omega), List.take_of_length_le hle]

/-- Witness for C4's amended statement: a 2-character text under
`charmax = 22` passes `check_length` completely unchanged, and a
23-character text under `charmax = 22` comes back with exactly its first
22 characters. -/
theorem create_truncates_config_witness :
    check_length ⟨['H', 'I'], ⟨0, 0, 0⟩, ⟨255, 255, 255⟩, 1024, 14, 5, 116, 6, 22⟩
      = Except.ok ⟨['H', 'I'], ⟨0, 0, 0⟩, ⟨255, 255, 255⟩, 1024, 14, 5, 116, 6, 22⟩
    ∧ check_length ⟨List.replicate 23 'A', ⟨0, 0, 0⟩, ⟨255, 255, 255⟩, 1024, 14, 5, 116, 6, 22⟩
      = Except.ok ⟨(List.replicate 23 'A').take 22, ⟨0, 0, 0⟩, ⟨255, 255, 255⟩,
          1024, 14, 5, 116, 6, 22⟩ :=
  ⟨(create_truncates_config _).2 (by decide) (by decide),
   (create_truncates_config _).1 (by decide) (by decide)⟩

/-- Counterexample to C4 as stated: `create()` begins with `check_length`,
and on the configuration with a 23-character text and `charmax = 22` the
text read back afterwards is the truncated 22-character string, not the
original — the core does mutate the configuration. -/
theorem create_truncates_config_cex :
    check_length ⟨List.replicate 23 'A', ⟨0, 0, 0⟩, ⟨255, 255, 255⟩, 1024, 14, 5, 116, 6, 22⟩
      = Except.ok ⟨List.replicate 22 'A', ⟨0, 0, 0⟩, ⟨255, 255, 255⟩, 1024, 14, 5, 116, 6, 22⟩
    ∧ check_length ⟨List.replicate 23 'A', ⟨0, 0, 0⟩, ⟨255, 255, 255⟩, 1024, 14, 5, 116, 6, 22⟩
      ≠ Except.ok ⟨List.replicate 23 'A', ⟨0, 0, 0⟩, ⟨255, 255, 255⟩, 1024, 14, 5, 116, 6, 22⟩ := by
  constructor
  · rfl
  · intro h
    rw [show check_length ⟨List.replicate 23 'A', ⟨0, 0, 0⟩, ⟨255, 255, 255⟩,
          1024, 14, 5, 116, 6, 22⟩
        = Except.ok ⟨List.replicate 22 'A', ⟨0, 0, 0⟩, ⟨255, 255, 255⟩,
          1024, 14, 5, 116, 6, 22⟩ from rfl] at h
    exact absurd (Except.ok.inj h) (by decide)

end Pyedgeon
